import Mathlib

/-!
Shallow embedding of the BIM QA/QC rule-matching and reconciliation engine.

The embedding translates the TypeScript source into executable Lean
definitions:

* JavaScript string primitives (`String.prototype.trim`, the `\s` character
  class, substring search via `String.prototype.includes`, `split`) are
  modelled on Lean `String`/`List Char`.  Case mapping uses Lean's ASCII
  `String.toUpper`/`String.toLower`; every string the engine compares is
  ASCII, where the JavaScript and ASCII case maps agree.
* JavaScript `Map`/`Set` objects are modelled as insertion-ordered
  association lists / duplicate-free lists (first occurrence kept), which is
  exactly the iteration-order semantics of `Map` and `Set`.
* Numbers that the source computes with floating point (the compliance
  percentage) are modelled as exact rationals.
* Locale-dependent final sorts (`localeCompare`) are omitted: they only
  permute result lists and every property proved here is permutation
  invariant.
-/

namespace BimQaqc

/-! ### JavaScript string primitives -/

/-- Characters matched by the JavaScript `\s` class and trimmed by
`String.prototype.trim`: tab, LF, VT, FF, CR, space, NBSP, the Zs category,
LS, PS and ZWNBSP. -/
def jsIsWhite (c : Char) : Bool :=
  let n := c.toNat
  n == 0x9 || n == 0xA || n == 0xB || n == 0xC || n == 0xD || n == 0x20 ||
  n == 0xA0 || n == 0x1680 || (0x2000 ≤ n && n ≤ 0x200A) ||
  n == 0x2028 || n == 0x2029 || n == 0x202F || n == 0x205F ||
  n == 0x3000 || n == 0xFEFF

/-- JavaScript `String.prototype.trim`. -/
def jsTrim (s : String) : String :=
  String.mk (((s.data.dropWhile jsIsWhite).reverse.dropWhile jsIsWhite).reverse)

/-- ASCII upper-casing, the fragment of `String.prototype.toUpperCase` the
engine exercises (every compared string is ASCII). -/
def toUpperStr (s : String) : String := String.mk (s.data.map Char.toUpper)

/-- ASCII lower-casing, the fragment of `String.prototype.toLowerCase` the
engine exercises. -/
def toLowerStr (s : String) : String := String.mk (s.data.map Char.toLower)

/-- Consume `needle` from the front of a list, returning the remainder. -/
def chopNeedle : List Char → List Char → Option (List Char)
  | l, [] => some l
  | [], _ :: _ => none
  | a :: as, b :: bs => if a == b then chopNeedle as bs else none

/-- Fuel-driven worker for `strSplitOn`; with fuel at least the haystack
length plus one it realizes leftmost non-overlapping splitting, the shared
semantics of JavaScript `split` and Lean `String.splitOn` for a non-empty
separator. -/
def splitOnFuel (sep : List Char) : Nat → List Char → List Char → List (List Char)
  | 0, rem, cur => [cur.reverse ++ rem]
  | _ + 1, [], cur => [cur.reverse]
  | fuel + 1, c :: rest, cur =>
    match chopNeedle (c :: rest) sep with
    | some rest1 => cur.reverse :: splitOnFuel sep fuel rest1 []
    | none => splitOnFuel sep fuel rest (c :: cur)

/-- JavaScript `s.split(sep)` for a non-empty literal separator. -/
def strSplitOn (s sep : String) : List String :=
  if sep.isEmpty then [s]
  else (splitOnFuel sep.data (s.data.length + 1) s.data []).map String.mk

/-- JavaScript `String.prototype.includes` (substring test).  A non-empty
needle occurs in `s` iff splitting on it yields at least two pieces. -/
def jsIncludes (s t : String) : Bool :=
  t.isEmpty || (strSplitOn s t).length != 1

/-- Unicode general category Cc (control characters). -/
def isCc (c : Char) : Bool :=
  c.toNat ≤ 0x1F || (0x7F ≤ c.toNat && c.toNat ≤ 0x9F)

/-- Unicode general category Cf (format characters), per the Unicode
character database used by the JavaScript `\p{Cf}` property escape. -/
def isCf (c : Char) : Bool :=
  let n := c.toNat
  n == 0xAD || (0x600 ≤ n && n ≤ 0x605) || n == 0x61C || n == 0x6DD ||
  n == 0x70F || (0x890 ≤ n && n ≤ 0x891) || n == 0x8E2 || n == 0x180E ||
  (0x200B ≤ n && n ≤ 0x200F) || (0x202A ≤ n && n ≤ 0x202E) ||
  (0x2060 ≤ n && n ≤ 0x2064) || (0x2066 ≤ n && n ≤ 0x206F) ||
  n == 0xFEFF || (0xFFF9 ≤ n && n ≤ 0xFFFB) ||
  n == 0x110BD || n == 0x110CD || (0x13430 ≤ n && n ≤ 0x1343F) ||
  (0x1BCA0 ≤ n && n ≤ 0x1BCA3) || (0x1D173 ≤ n && n ≤ 0x1D17A) ||
  n == 0xE0001 || (0xE0020 ≤ n && n ≤ 0xE007F)

/-! ### Text Normalizer (src/utils/text.ts, cleanText)

`input.replace(/[\p\x7bCc\x7d\p\x7bCf\x7d]/gu, '')` deletes every code point
in the Cc and Cf categories. -/

/-- The string case of `cleanText`: delete all Cc and Cf code points. -/
def cleanText (s : String) : String :=
  String.mk (s.data.filter (fun c => !(isCc c || isCf c)))

/-! ### Vocabulary builder (src/unnamed/part_001, handleAnalysis)

`sourceText.split(/[\s,;|]+/)` followed, per token, by trimming, deletion of
the six bracket characters, upper-casing, and insertion of the cleaned token
together with its hyphen-delimited sub-tokens of length > 1. -/

/-- A character is a separator of the regex `[\s,;|]+`. -/
def isSepChar (c : Char) : Bool :=
  jsIsWhite c || c == ',' || c == ';' || c == '|'

/-- Split a character list on maximal runs of separator characters,
mirroring `String.prototype.split` with the regex `[\s,;|]+` (a leading or
trailing run contributes an empty token, as in JavaScript).  `cur` is the
current token in reverse; `inSep` records that the current separator run has
already emitted its token. -/
def splitSepAux : List Char → List Char → Bool → List (List Char)
  | [], cur, _ => [cur.reverse]
  | c :: rest, cur, inSep =>
    if isSepChar c then
      if inSep then splitSepAux rest cur true
      else cur.reverse :: splitSepAux rest [] true
    else
      splitSepAux rest (c :: cur) false

/-- JavaScript `sourceText.split(/[\s,;|]+/)`. -/
def jsSplitSep (s : String) : List String :=
  (splitSepAux s.data [] false).map String.mk

/-- The six bracket characters deleted by `replace(/[()[\]\x7b\x7d]/g, '')`:
parentheses, square brackets and curly braces. -/
def isBracketChar (c : Char) : Bool :=
  c.toNat == 0x28 || c.toNat == 0x29 || c.toNat == 0x5B ||
  c.toNat == 0x5D || c.toNat == 0x7B || c.toNat == 0x7D

/-- Per-token normalization: `w.trim().replace(/[()[\]\x7b\x7d]/g, '').toUpperCase()`. -/
def cleanToken (w : String) : String :=
  toUpperStr (String.mk ((jsTrim w).data.filter (fun c => !isBracketChar c)))

/-- Add a token to the vocabulary unless already present (JavaScript
`Set.prototype.add`, insertion order, first occurrence kept). -/
def addToken (acc : List String) (t : String) : List String :=
  if acc.contains t then acc else acc ++ [t]

/-- The `pdfTokens` set built by `handleAnalysis`: for each separator-split
token of length > 1 insert the cleaned token, and when it contains a hyphen
additionally insert each hyphen-delimited sub-token of length > 1. -/
def buildVocabulary (text : String) : List String :=
  (jsSplitSep text).foldl
    (fun acc w =>
      let clean := cleanToken w
      if clean.length > 1 then
        let acc1 := addToken acc clean
        if clean.data.contains '-' then
          (strSplitOn clean "-").foldl
            (fun a sub => if sub.length > 1 then addToken a sub else a) acc1
        else acc1
      else acc)
    []

/-! ### Verdict records (types.ts ValidationResultItem)

The `originalRecord` field built by `createRowRecord` only echoes input
cells for display; the claims checked here constrain the status, reasoning
and invalid-value fields, so the embedding keeps those. -/

/-- Verdict status of a rule checker. -/
inductive VStatus where
  | valid
  | invalid
  | needsReview
deriving DecidableEq, Repr

/-- One verdict record produced by a rule checker. -/
structure Verdict where
  status : VStatus
  reasoning : String
  invalidValue : Option String
deriving DecidableEq, Repr

/-! ### File Name check (src/unnamed/part_001, handleAnalysis check 1) -/

/-- JavaScript `originalVal.replace(/\.[^/.]+$/, "")`: delete a final
dot-extension whose extension part is non-empty and free of further dots and
slashes.  The matched dot is necessarily the last dot of the string. -/
def stripExt (s : String) : String :=
  let rev := s.data.reverse
  let ext := rev.takeWhile (fun c => c != '.' && c != '/')
  match rev.dropWhile (fun c => c != '.' && c != '/') with
  | '.' :: more => if ext.isEmpty then s else String.mk more.reverse
  | _ => s

/-- Segment split of a file name: on `-` when a hyphen is present, else on
`_` when an underscore is present, else the whole name. -/
def splitNameSegments (s : String) : List String :=
  if s.data.contains '-' then strSplitOn s "-"
  else if s.data.contains '_' then strSplitOn s "_"
  else [s]

/-- The regex `^\d{6}$`: exactly six ASCII digits. -/
def isSixDigits (s : String) : Bool :=
  s.length == 6 && s.data.all Char.isDigit

/-- Last segment (`segments[segments.length - 1]`) of the extension-stripped
name. -/
def lastSegment (originalVal : String) : String :=
  (splitNameSegments (stripExt originalVal)).getLastD ""

/-- All segments but the last (`segments.slice(0, -1)`). -/
def prefixSegments (originalVal : String) : List String :=
  (splitNameSegments (stripExt originalVal)).dropLast

/-- Loop body of the File Name check for one non-empty trimmed cell value:
6-digit test on the last segment, vocabulary membership of the upper-cased
earlier segments, then the verdict record with its reasoning text. -/
def filenameVerdictCore (V : List String) (originalVal : String) : Verdict :=
  let is6 := isSixDigits (lastSegment originalVal)
  let invalidSegs := (prefixSegments originalVal).filter
    (fun s => !V.contains (toUpperStr s))
  let errors :=
    (if !is6 then
      ["The sequence segment \x27" ++ lastSegment originalVal ++
       "\x27 must be exactly 6 digits."] else []) ++
    (if invalidSegs.length > 0 then
      ["Segments [" ++ String.intercalate ", " invalidSegs ++
       "] are wrong (not found in project rules)."] else [])
  let ok := errors.length == 0
  { status := if ok then .valid else .invalid
    reasoning :=
      if ok then "Valid: Matches all project naming rules."
      else "Invalid: " ++ String.intercalate " " errors
    invalidValue := if ok then none else some originalVal }

/-- The File Name check (`excelData.reduce`): rows whose filename cell trims
to empty are skipped; every other row contributes one verdict. -/
def filenameCheck (V : List String) (cells : List String) : List Verdict :=
  cells.foldl
    (fun acc cell =>
      let originalVal := jsTrim cell
      if originalVal = "" then acc
      else acc ++ [filenameVerdictCore V originalVal])
    []

/-! ### Project Units check (src/unnamed/part_001, handleAnalysis check 2) -/

/-- Number of non-overlapping occurrences of `k` in `s`, the JavaScript
idiom `s.split(k).length - 1`. -/
def countOccurrences (s k : String) : Nat :=
  (strSplitOn s k).length - 1

/-- The `metricScore` accumulator over the lower-cased source text. -/
def metricScore (text : String) : Nat :=
  ["metric", "millimeter", "meter"].foldl
    (fun acc k => acc + countOccurrences (toLowerStr text) k) 0

/-- The `imperialScore` accumulator over the lower-cased source text. -/
def imperialScore (text : String) : Nat :=
  ["imperial", "inch", "feet"].foldl
    (fun acc k => acc + countOccurrences (toLowerStr text) k) 0

/-- The project-wide standard: Metric whenever the metric score is at least
the imperial score. -/
def projectUnitStandard (text : String) : String :=
  if metricScore text ≥ imperialScore text then "Metric" else "Imperial"

/-- Loop body of the Project Units check for one non-empty trimmed value. -/
def unitsVerdictCore (standard : String) (val : String) : Verdict :=
  let ok := jsIncludes (toLowerStr val) (toLowerStr standard)
  { status := if ok then .valid else .invalid
    reasoning :=
      if ok then "Valid: Matches the document\x27s " ++ standard ++ " standard."
      else "Item is wrong: Expected " ++ standard ++ " but found \x27" ++
           val ++ "\x27."
    invalidValue := none }

/-- The Project Units check (`excelData.reduce`): skip rows whose cell trims
to empty, judge the rest against the document-derived standard. -/
def unitsCheck (text : String) (cells : List String) : List Verdict :=
  cells.foldl
    (fun acc cell =>
      let val := jsTrim cell
      if val = "" then acc
      else acc ++ [unitsVerdictCore (projectUnitStandard text) val])
    []

/-! ### RVT Link pinned check (src/unnamed/part_001, handleAnalysis check 4) -/

/-- Per-row verdict of the pin check.  The source compares
`String(r[h]).toLowerCase() === 'true'` on the raw cell, without trimming. -/
def rvtRowVerdict (cell : String) : Verdict :=
  let isPinned := toLowerStr cell == "true"
  { status := if isPinned then .valid else .invalid
    reasoning :=
      if isPinned then "Valid: The linked model is correctly pinned."
      else "Item is wrong: Linked models must be pinned to prevent accidental movement."
    invalidValue := none }

/-- The synthetic record emitted when the pin column has no non-empty cell. -/
def rvtSyntheticValid : Verdict :=
  { status := .valid
    reasoning := "Valid: There is no link in the Model."
    invalidValue := none }

/-- The RVT Link pinned check: filter to cells with non-empty trimmed value;
when none remain emit one synthetic Valid record, else one verdict per
remaining cell. -/
def rvtLinkPinnedCheck (cells : List String) : List Verdict :=
  let rows := cells.filter (fun c => jsTrim c != "")
  if rows.isEmpty then [rvtSyntheticValid]
  else rows.map rvtRowVerdict

/-! ### Navisworks view check (src/unnamed/part_001, handleAnalysis check 5) -/

/-- Per-row verdict of the Navisworks keyword check. -/
def navisRowVerdict (cell : String) : Verdict :=
  let hasKeyword := jsIncludes (toLowerStr cell) "navisworks"
  { status := if hasKeyword then .valid else .invalid
    reasoning :=
      if hasKeyword then "Valid: View name includes the mandatory keyword."
      else "Item is wrong: View name must include \x27Navisworks\x27 keyword."
    invalidValue := none }

/-- The synthetic record emitted when the view column has no non-empty cell. -/
def navisSyntheticInvalid : Verdict :=
  { status := .invalid
    reasoning := "Item not found: No Navisworks view found in the Model."
    invalidValue := none }

/-- The Navisworks view check: filter to cells with non-empty trimmed value;
when none remain emit one synthetic Invalid record, else one verdict per
remaining cell. -/
def navisworksViewCheck (cells : List String) : List Verdict :=
  let rows := cells.filter (fun c => jsTrim c != "")
  if rows.isEmpty then [navisSyntheticInvalid]
  else rows.map navisRowVerdict

/-! ### Parameter compliance analyzer (src/unnamed/part_004, handleAnalyze)

The source compares the LOIN standard-parameter list against the dataset's
analyzable headers under trim-only, case-sensitive normalization, then
computes the compliance score with a special case at zero expected
parameters.  The JavaScript floating-point percentage is modelled as an
exact rational; the final locale-aware display sorts are omitted. -/

/-- Compliance comparison outcome. -/
structure ComplianceResult where
  matched : List String
  missing : List String
  extra : List String
  complianceScore : ℚ
deriving DecidableEq, Repr

/-- The compliance computation of `handleAnalyze`. -/
def complianceOf (standardParams analyzableHeaders : List String) :
    ComplianceResult :=
  let dataHeaderSet := analyzableHeaders.map jsTrim
  let standardParamSet := standardParams.map jsTrim
  let matched := standardParams.filter
    (fun p => dataHeaderSet.contains (jsTrim p))
  let missing := standardParams.filter
    (fun p => !dataHeaderSet.contains (jsTrim p))
  let extra := analyzableHeaders.filter
    (fun h => !standardParamSet.contains (jsTrim h))
  let totalExpected := standardParams.length
  let complianceScore : ℚ :=
    if totalExpected > 0 then ((matched.length : ℚ) / totalExpected) * 100
    else if matched.length > 0 then 100 else 0
  { matched := matched, missing := missing, extra := extra
    complianceScore := complianceScore }

/-! ### MIDP/ACC dataset model (src/pages/MIDPCheckPage.tsx)

JavaScript `Map`s are modelled as insertion-ordered association lists
(`alistSet` updates in place or appends, as `Map.prototype.set` does) and
`Set`s as duplicate-free lists in first-insertion order. -/

/-- Value of a `FileDataMap` entry: display-case name, per-format occurrence
counts, and the milestone tags collected across rows. -/
structure FileItem where
  originalCase : String
  formatCounts : List (String × Nat)
  milestones : List String
deriving DecidableEq, Repr

/-- Insertion-ordered map from lower-case base name to `FileItem`. -/
abbrev FileDataMap := List (String × FileItem)

/-- One ingested spreadsheet row, reduced to the cells the ingestion reads:
the name cell, the format cell, and the milestone cells keyed by milestone
label. -/
structure MIDPRow where
  name : String
  format : String
  milestoneCells : List (String × String)
deriving DecidableEq, Repr

/-- JavaScript `Map.prototype.set`: overwrite the first entry with this key,
else append. -/
def alistSet {α : Type} : List (String × α) → String → α → List (String × α)
  | [], k, v => [(k, v)]
  | (k0, v0) :: rest, k, v =>
    if k0 == k then (k0, v) :: rest else (k0, v0) :: alistSet rest k v

/-- The falsy milestone cell values of the ingestion. -/
def falseValues : List String := ["no", "false", "n/a", "-", "0", "nan", ""]

/-- Milestone tags contributed by one row: the labels whose cell value,
trimmed and lower-cased, is not one of the false values. -/
def rowMilestones (r : MIDPRow) : List String :=
  (r.milestoneCells.filter
    (fun kv => !falseValues.contains (toLowerStr (jsTrim kv.2)))).map Prod.fst

/-- Add the elements of `b` to the set `a` (JavaScript `Set.prototype.add`
in iteration order, first occurrence kept). -/
def setAddAll (a b : List String) : List String :=
  b.foldl (fun acc m => if acc.contains m then acc else acc ++ [m]) a

/-- Normalized format cell: trim, delete one leading dot
(`replace(/^\./, '')`), lower-case. -/
def normalizeExtension (s : String) : String :=
  (match (jsTrim s).data with
   | '.' :: rest => String.mk rest
   | _ => jsTrim s)
  |> toLowerStr

/-- First phase of the `cleanedJson.forEach` body of `handleFileChange`: a
new base name opens an entry with empty format counts and the row's
milestones; an existing entry merges the row's milestones. -/
def ingestName (m : FileDataMap) (lowerName originalBaseName : String)
    (ms : List String) : FileDataMap :=
  match List.lookup lowerName m with
  | none => alistSet m lowerName
      { originalCase := originalBaseName, formatCounts := [], milestones := ms }
  | some item => alistSet m lowerName
      { item with milestones := setAddAll item.milestones ms }

/-- Second phase: when the normalized format is non-empty, bump that
format's occurrence count on the base name's entry. -/
def ingestFormat (m1 : FileDataMap) (lowerName extension : String) :
    FileDataMap :=
  if extension ≠ "" then
    match List.lookup lowerName m1 with
    | some item =>
      let currentCount := (List.lookup extension item.formatCounts).getD 0
      alistSet m1 lowerName
        { item with
          formatCounts := alistSet item.formatCounts extension (currentCount + 1) }
    | none => m1
  else m1

/-- Ingestion of one row into the accumulating `columnData` map: rows whose
name cell trims to empty are skipped, the rest run the two phases. -/
def ingestRow (m : FileDataMap) (r : MIDPRow) : FileDataMap :=
  let originalBaseName := jsTrim r.name
  if originalBaseName = "" then m
  else
    ingestFormat
      (ingestName m (toLowerStr originalBaseName) originalBaseName
        (rowMilestones r))
      (toLowerStr originalBaseName) (normalizeExtension r.format)

/-- The `columnData` map built from all rows of one uploaded file. -/
def buildFileDataMap (rows : List MIDPRow) : FileDataMap :=
  rows.foldl ingestRow []

/-! ### Dataset reconciler (src/pages/MIDPCheckPage.tsx, handleCompare) -/

/-- Comparison status of one (base name, format) pair. -/
inductive CompStatus where
  | matched
  | missingInAcc
  | extraInAcc
  | countMismatch
deriving DecidableEq, Repr

/-- One reconciler output record. -/
structure CompResult where
  baseName : String
  format : String
  status : CompStatus
  midpCount : Nat
  accCount : Nat
  milestones : List String
deriving DecidableEq, Repr

/-- Worker for `dedupFirst`: keep an element unless already seen. -/
def dedupFirstAux (seen : List String) : List String → List String
  | [] => []
  | x :: xs =>
    if seen.contains x then dedupFirstAux seen xs
    else x :: dedupFirstAux (seen ++ [x]) xs

/-- Duplicate-free list in first-occurrence order: the contents of a
JavaScript `Set` seeded from a list. -/
def dedupFirst (l : List String) : List String := dedupFirstAux [] l

/-- The four-way classification of `handleCompare`: the status starts as
matched and is downgraded by the three guarded branches. -/
def classifyCounts (midpCount accCount : Nat) : CompStatus :=
  if midpCount > 0 ∧ accCount = 0 then .missingInAcc
  else if midpCount = 0 ∧ accCount > 0 then .extraInAcc
  else if midpCount ≠ accCount then .countMismatch
  else .matched

/-- JavaScript string `||`: an empty string falls through to the
alternative. -/
def strOr (a b : String) : String := if a = "" then b else a

/-- Format keys of an optional item (`item?.formatCounts` keys, in map
order). -/
def itemFormats (it : Option FileItem) : List String :=
  match it with
  | none => []
  | some it => it.formatCounts.map Prod.fst

/-- Milestones of an optional item. -/
def itemMilestones (it : Option FileItem) : List String :=
  match it with
  | none => []
  | some it => it.milestones

/-- Union of the format keys observed on either side for one base name
(`allFormatsForThisBase`). -/
def formatsAt (midpMap accMap : FileDataMap) (lowerBaseName : String) :
    List String :=
  dedupFirst (itemFormats (List.lookup lowerBaseName midpMap) ++
              itemFormats (List.lookup lowerBaseName accMap))

/-- The record `handleCompare` pushes for one (base name, format) pair.  The
per-base-name bindings of the source loop (`midpItem`, `accItem`,
`originalName`, `combinedMilestones`) are inlined. -/
def resultFor (midpMap accMap : FileDataMap) (lowerBaseName format : String) :
    CompResult :=
  let midpItem := List.lookup lowerBaseName midpMap
  let accItem := List.lookup lowerBaseName accMap
  let originalName :=
    strOr (strOr ((midpItem.map FileItem.originalCase).getD "")
                 ((accItem.map FileItem.originalCase).getD ""))
          lowerBaseName
  let combinedMilestones :=
    setAddAll (setAddAll [] (itemMilestones midpItem)) (itemMilestones accItem)
  let midpCount := (midpItem.bind (fun i => List.lookup format i.formatCounts)).getD 0
  let accCount := (accItem.bind (fun i => List.lookup format i.formatCounts)).getD 0
  { baseName := originalName
    format := toUpperStr format
    status := classifyCounts midpCount accCount
    midpCount := midpCount
    accCount := accCount
    milestones := combinedMilestones }

/-- The union of base-name keys across both maps (`allBaseNames`), in
first-insertion order. -/
def allKeys (midpMap accMap : FileDataMap) : List String :=
  dedupFirst (midpMap.map Prod.fst ++ accMap.map Prod.fst)

/-- The reconciler of `handleCompare`: for every base name in either map and
every format observed for it on either side, emit one classified record.
The source's final `localeCompare` sort only permutes this list and is
omitted. -/
def reconcile (midpMap accMap : FileDataMap) : List CompResult :=
  (allKeys midpMap accMap).flatMap
    (fun lowerBaseName =>
      (formatsAt midpMap accMap lowerBaseName).map
        (resultFor midpMap accMap lowerBaseName))

/-- The (lower base name, format) pairs the reconciler iterates, in emission
order. -/
def emittedPairs (midpMap accMap : FileDataMap) : List (String × String) :=
  (allKeys midpMap accMap).flatMap
    (fun k => (formatsAt midpMap accMap k).map (fun f => (k, f)))

/-- All (key, format-key) pairs present in one map. -/
def mapPairs (m : FileDataMap) : List (String × String) :=
  m.flatMap (fun kv => kv.2.formatCounts.map (fun fc => (kv.1, fc.1)))

/-! ### Helper lemmas -/

/-- Every entry of `alistSet m k v` is `(k, v)` or an entry of `m`. -/
theorem mem_alistSet {α : Type} (m : List (String × α)) (k : String) (v : α) :
    ∀ kv ∈ alistSet m k v, kv = (k, v) ∨ kv ∈ m := by
  induction m with
  | nil => simp [alistSet]
  | cons e rest ih =>
    obtain ⟨k0, v0⟩ := e
    intro kv hkv
    simp only [alistSet] at hkv
    by_cases h : k0 == k
    · rw [if_pos h] at hkv
      have hk : k0 = k := by simpa using h
      subst hk
      rcases List.mem_cons.mp hkv with rfl | hkv
      · exact Or.inl rfl
      · exact Or.inr (List.mem_cons_of_mem _ hkv)
    · rw [if_neg h] at hkv
      rcases List.mem_cons.mp hkv with rfl | hkv
      · exact Or.inr (List.mem_cons_self _ _)
      · rcases ih kv hkv with h1 | h1
        · exact Or.inl h1
        · exact Or.inr (List.mem_cons_of_mem _ h1)

/-- A successful association-list lookup returns an entry of the list. -/
theorem lookup_mem {α : Type} :
    ∀ {m : List (String × α)} {k : String} {v : α},
      List.lookup k m = some v → (k, v) ∈ m := by
  intro m
  induction m with
  | nil => intro k v h; simp [List.lookup] at h
  | cons e rest ih =>
    obtain ⟨k0, v0⟩ := e
    intro k v h
    simp only [List.lookup] at h
    by_cases hk : k == k0
    · have hk1 : k = k0 := by simpa using hk
      rw [hk] at h
      simp only [Option.some.injEq] at h
      subst hk1
      subst h
      exact List.mem_cons_self _ _
    · rw [Bool.not_eq_true] at hk
      rw [hk] at h
      exact List.mem_cons_of_mem _ (ih h)

/-- In a list with duplicate-free keys, lookup of the key of an entry
returns exactly that entry's value. -/
theorem lookup_eq_of_mem_nodup {α : Type} :
    ∀ {m : List (String × α)}, (m.map Prod.fst).Nodup →
      ∀ {k : String} {v : α}, (k, v) ∈ m → List.lookup k m = some v := by
  intro m
  induction m with
  | nil => intro _ k v h; simp at h
  | cons e rest ih =>
    obtain ⟨k0, v0⟩ := e
    intro hn k v hm
    simp only [List.map_cons] at hn
    have hn2 := List.nodup_cons.mp hn
    rcases List.mem_cons.mp hm with heq | hm2
    · injection heq with h1 h2
      subst h1
      subst h2
      simp [List.lookup]
    · have hk : k ≠ k0 := by
        intro h
        subst h
        exact hn2.1 (List.mem_map_of_mem Prod.fst hm2)
      have hbeq : (k == k0) = false := by simpa using hk
      simp only [List.lookup, hbeq]
      exact ih hn2.2 hm2

/-- A key occurring among the first components of an association list looks
up to some value paired with it in the list. -/
theorem lookup_of_mem_fst {α : Type} :
    ∀ {l : List (String × α)} {f : String}, f ∈ l.map Prod.fst →
      ∃ c, List.lookup f l = some c ∧ (f, c) ∈ l := by
  intro l
  induction l with
  | nil => intro f h; simp at h
  | cons e rest ih =>
    obtain ⟨k0, c0⟩ := e
    intro f h
    simp only [List.map_cons, List.mem_cons] at h
    by_cases hk : f = k0
    · subst hk
      exact ⟨c0, by simp [List.lookup], List.mem_cons_self _ _⟩
    · have hf : f ∈ rest.map Prod.fst := by
        rcases h with h1 | h1
        · exact absurd h1 hk
        · exact h1
      obtain ⟨c, hc, hmem⟩ := ih hf
      refine ⟨c, ?_, List.mem_cons_of_mem _ hmem⟩
      have hbeq : (f == k0) = false := by simpa using hk
      simp only [List.lookup, hbeq]
      exact hc

/-- Membership in the dedup worker: kept iff present and not already seen. -/
theorem mem_dedupFirstAux (x : String) :
    ∀ (l seen : List String),
      x ∈ dedupFirstAux seen l ↔ x ∈ l ∧ x ∉ seen := by
  intro l
  induction l with
  | nil => intro seen; simp [dedupFirstAux]
  | cons y ys ih =>
    intro seen
    simp only [dedupFirstAux]
    by_cases h : seen.contains y
    · rw [if_pos h]
      have hy : y ∈ seen := by simpa using h
      rw [ih]
      constructor
      · rintro ⟨h1, h2⟩
        exact ⟨List.mem_cons_of_mem _ h1, h2⟩
      · rintro ⟨h1, h2⟩
        rcases List.mem_cons.mp h1 with rfl | h1
        · exact absurd hy h2
        · exact ⟨h1, h2⟩
    · rw [if_neg h]
      have hy : y ∉ seen := by simpa using h
      by_cases hxy : x = y
      · subst hxy
        simp [hy]
      · simp only [List.mem_cons, hxy, false_or]
        rw [ih]
        simp [hxy, List.mem_append]

/-- The dedup worker returns a duplicate-free list. -/
theorem nodup_dedupFirstAux :
    ∀ (l seen : List String), (dedupFirstAux seen l).Nodup := by
  intro l
  induction l with
  | nil => intro seen; simp [dedupFirstAux]
  | cons y ys ih =>
    intro seen
    simp only [dedupFirstAux]
    by_cases h : seen.contains y
    · rw [if_pos h]
      exact ih seen
    · rw [if_neg h]
      refine List.nodup_cons.mpr ⟨?_, ih (seen ++ [y])⟩
      rw [mem_dedupFirstAux]
      rintro ⟨-, h2⟩
      exact h2 (by simp)

/-- Membership survives `dedupFirst`. -/
theorem mem_dedupFirst (x : String) (l : List String) :
    x ∈ dedupFirst l ↔ x ∈ l := by
  unfold dedupFirst
  rw [mem_dedupFirstAux]
  simp

/-- `dedupFirst` returns a duplicate-free list. -/
theorem nodup_dedupFirst (l : List String) : (dedupFirst l).Nodup :=
  nodup_dedupFirstAux l []

/-- A fold that appends one verdict per cell with non-empty trimmed value is
the map of the verdict maker over the trimmed non-empty cells. -/
theorem foldl_verdicts (f : String → Verdict) (cells : List String)
    (acc : List Verdict) :
    cells.foldl
      (fun acc cell =>
        let v := jsTrim cell
        if v = "" then acc else acc ++ [f v]) acc
    = acc ++ ((cells.map jsTrim).filter (fun v => v ≠ "")).map f := by
  induction cells generalizing acc with
  | nil => simp
  | cons c cs ih =>
    simp only [List.foldl_cons, List.map_cons, List.filter_cons]
    by_cases h : jsTrim c = ""
    · simp [h, ih]
    · simp [h, ih]

/-! ### C1 — Text Normalizer -/

/-- C1: the claim states that `cleanText` removes exactly the Cc and Cf code
points while also preserving tab and newline.  Tab (U+0009) and newline
(U+000A) are themselves Cc code points, so the function deletes them: on the
failing input `"a\tb\nc"` the output is `"abc"` with both characters gone,
contradicting the claim (and the source's own comment); the space (category
Zs) in `" a b "` is preserved. -/
theorem cleanText_deletes_tab_and_newline :
    cleanText "a\tb\nc" = "abc" ∧ cleanText " a b " = " a b " ∧
    isCc '\t' = true ∧ isCc '\n' = true := by decide

/-! ### C3 — Vocabulary builder example -/

/-- C3 counterexample: the vocabulary built from `"ARCH-L01-001 Rev A"` does
not contain the token `"A"` — the builder only inserts tokens of length
greater than one. -/
theorem buildVocabulary_example_lacks_A :
    "A" ∉ buildVocabulary "ARCH-L01-001 Rev A" := by decide

/-- C3 amended: the vocabulary built from `"ARCH-L01-001 Rev A"` contains
the five tokens `"ARCH-L01-001"`, `"ARCH"`, `"L01"`, `"001"` and `"REV"`,
while the single-character token `"A"` is excluded by the length filter. -/
theorem buildVocabulary_example_amended :
    "ARCH-L01-001" ∈ buildVocabulary "ARCH-L01-001 Rev A"
    ∧ "ARCH" ∈ buildVocabulary "ARCH-L01-001 Rev A"
    ∧ "L01" ∈ buildVocabulary "ARCH-L01-001 Rev A"
    ∧ "001" ∈ buildVocabulary "ARCH-L01-001 Rev A"
    ∧ "REV" ∈ buildVocabulary "ARCH-L01-001 Rev A"
    ∧ "A" ∉ buildVocabulary "ARCH-L01-001 Rev A" := by decide

/-! ### C7 — boolean-pin check -/

/-- C7 counterexample: the cell `" true "` is non-empty after trimming and
its trimmed lowercase value is `"true"`, yet the check marks it Invalid —
the source compares the raw lowercase value without trimming. -/
theorem rvtLinkPinned_trim_counterexample :
    (rvtLinkPinnedCheck [" true "]).map Verdict.status = [VStatus.invalid]
    ∧ toLowerStr (jsTrim " true ") = "true" := by decide

/-- C7 amended: when at least one cell survives the non-empty-after-trim
filter, the check emits one verdict per surviving cell, and a verdict is
Valid iff the cell's raw (untrimmed) lowercase value equals `"true"`. -/
theorem rvtLinkPinned_amended (cells : List String)
    (h : cells.filter (fun c => jsTrim c != "") ≠ []) :
    rvtLinkPinnedCheck cells
      = (cells.filter (fun c => jsTrim c != "")).map rvtRowVerdict
    ∧ ∀ cell : String,
        ((rvtRowVerdict cell).status = VStatus.valid ↔ toLowerStr cell = "true") := by
  constructor
  · unfold rvtLinkPinnedCheck
    simp only [List.isEmpty_iff]
    rw [if_neg h]
  · intro cell
    unfold rvtRowVerdict
    by_cases hc : toLowerStr cell = "true"
    · simp [hc]
    · simp only [beq_iff_eq]
      rw [if_neg hc]
      simp [hc]

/-- Witness for the amended C7 theorem at concrete inputs. -/
theorem rvtLinkPinned_amended_witness :
    rvtLinkPinnedCheck ["true", "x"]
      = (["true", "x"].filter (fun c => jsTrim c != "")).map rvtRowVerdict
    ∧ ((rvtRowVerdict "X").status = VStatus.valid ↔ toLowerStr "X" = "true") :=
  ⟨(rvtLinkPinned_amended ["true", "x"] (by decide)).1,
   (rvtLinkPinned_amended ["true", "x"] (by decide)).2 "X"⟩

/-! ### C8 — zero-applicable-row asymmetry -/

/-- C8: when every cell of the located boolean-pin column trims to empty the
check yields exactly one synthetic Valid record, while the Navisworks
keyword check in the same situation yields exactly one synthetic Invalid
record. -/
theorem zeroApplicableRows_asymmetry (cells cells2 : List String)
    (h : ∀ c ∈ cells, jsTrim c = "") (h2 : ∀ c ∈ cells2, jsTrim c = "") :
    rvtLinkPinnedCheck cells = [rvtSyntheticValid]
    ∧ navisworksViewCheck cells2 = [navisSyntheticInvalid]
    ∧ rvtSyntheticValid.status = VStatus.valid
    ∧ navisSyntheticInvalid.status = VStatus.invalid := by
  have hf : cells.filter (fun c => jsTrim c != "") = [] := by
    simp only [List.filter_eq_nil_iff]
    intro c hc
    simp [h c hc]
  have hf2 : cells2.filter (fun c => jsTrim c != "") = [] := by
    simp only [List.filter_eq_nil_iff]
    intro c hc
    simp [h2 c hc]
  refine ⟨?_, ?_, rfl, rfl⟩
  · unfold rvtLinkPinnedCheck
    rw [hf]
    rfl
  · unfold navisworksViewCheck
    rw [hf2]
    rfl

/-- Witness for the C8 theorem at concrete all-empty columns. -/
theorem zeroApplicableRows_asymmetry_witness :
    rvtLinkPinnedCheck ["", "  "] = [rvtSyntheticValid]
    ∧ navisworksViewCheck [""] = [navisSyntheticInvalid]
    ∧ rvtSyntheticValid.status = VStatus.valid
    ∧ navisSyntheticInvalid.status = VStatus.invalid :=
  zeroApplicableRows_asymmetry ["", "  "] [""] (by decide) (by decide)

/-! ### C9 — compliance score boundary -/

/-- C9: with a positive required-parameter count the compliance score is
matched count over required count times 100; with an empty required list the
matched list is necessarily empty and the score is 0, not 100 — the
100-for-zero-required branch would require a non-empty matched list, which
cannot happen. -/
theorem complianceScore_spec (standardParams analyzableHeaders : List String) :
    (standardParams = [] →
      (complianceOf standardParams analyzableHeaders).complianceScore = 0
      ∧ (complianceOf standardParams analyzableHeaders).matched = [])
    ∧ (0 < standardParams.length →
      (complianceOf standardParams analyzableHeaders).complianceScore
        = ((complianceOf standardParams analyzableHeaders).matched.length : ℚ)
            / (standardParams.length : ℚ) * 100) := by
  constructor
  · rintro rfl
    simp [complianceOf]
  · intro h
    simp [complianceOf, h]

/-- Witness for the C9 theorem: an empty required list scores 0 with no
matches; a one-element required list scores by the ratio formula. -/
theorem complianceScore_spec_witness :
    ((complianceOf [] ["x"]).complianceScore = 0
      ∧ (complianceOf [] ["x"]).matched = [])
    ∧ (complianceOf ["a"] ["a"]).complianceScore
        = ((complianceOf ["a"] ["a"]).matched.length : ℚ)
            / ((["a"] : List String).length : ℚ) * 100 :=
  ⟨(complianceScore_spec [] ["x"]).1 rfl,
   (complianceScore_spec ["a"] ["a"]).2 (by decide)⟩

/-- A filter by a Bool predicate is non-empty iff some element satisfies the
predicate. -/
theorem filter_ne_nil_iff_exists (p : String → Bool) (l : List String) :
    l.filter p ≠ [] ↔ ∃ a ∈ l, p a := by
  rw [ne_eq, List.filter_eq_nil_iff]
  push_neg
  simp

/-! ### C2 — File Name check -/

/-- C2: the File Name check emits exactly one verdict per row whose filename
cell is non-empty after trimming (empty cells are skipped, not marked
Invalid), and a verdict is Invalid iff the last segment of the
extension-stripped, `-`-else-`_`-split name is not exactly six digits or
some earlier segment's uppercase form is absent from the vocabulary. -/
theorem filenameCheck_spec (V : List String) (cells : List String) :
    filenameCheck V cells
      = ((cells.map jsTrim).filter (fun v => v ≠ "")).map (filenameVerdictCore V)
    ∧ ∀ originalVal : String,
        ((filenameVerdictCore V originalVal).status = VStatus.invalid
          ↔ isSixDigits (lastSegment originalVal) = false
            ∨ ∃ s ∈ prefixSegments originalVal,
                V.contains (toUpperStr s) = false) := by
  constructor
  · unfold filenameCheck
    simpa using foldl_verdicts (filenameVerdictCore V) cells []
  · intro v
    have hex : ((prefixSegments v).filter (fun s => !V.contains (toUpperStr s)) ≠ [])
        ↔ ∃ s ∈ prefixSegments v, V.contains (toUpperStr s) = false := by
      rw [filter_ne_nil_iff_exists]
      simp
    unfold filenameVerdictCore
    by_cases h6 : isSixDigits (lastSegment v)
    · by_cases hseg :
        (prefixSegments v).filter (fun s => !V.contains (toUpperStr s)) = []
      · simp [h6, hseg, ← hex]
      · have hlen : 0 < ((prefixSegments v).filter
            (fun s => !V.contains (toUpperStr s))).length :=
          List.length_pos.mpr hseg
        simp only [h6]
        simp [hlen, Nat.pos_iff_ne_zero.mp hlen, h6, ← hex, hseg]
    · simp only [Bool.not_eq_true] at h6
      simp [h6]

/-! ### C6 — Project Units check -/

/-- C6: the project standard is Metric exactly when the metric keyword score
is at least the imperial keyword score (ties favor Metric, otherwise the
standard is Imperial), the check emits one verdict per row with non-empty
trimmed units cell, and a verdict is Valid iff the trimmed cell
case-insensitively contains the chosen standard's name. -/
theorem unitsCheck_spec (text : String) (cells : List String) :
    (projectUnitStandard text = "Metric" ↔ imperialScore text ≤ metricScore text)
    ∧ (projectUnitStandard text = "Metric" ∨ projectUnitStandard text = "Imperial")
    ∧ unitsCheck text cells
        = ((cells.map jsTrim).filter (fun v => v ≠ "")).map
            (unitsVerdictCore (projectUnitStandard text))
    ∧ ∀ val : String,
        ((unitsVerdictCore (projectUnitStandard text) val).status = VStatus.valid
          ↔ jsIncludes (toLowerStr val)
              (toLowerStr (projectUnitStandard text)) = true) := by
  refine ⟨?_, ?_, ?_, ?_⟩
  · unfold projectUnitStandard
    by_cases h : imperialScore text ≤ metricScore text
    · simp [h]
    · simp [h]
  · unfold projectUnitStandard
    by_cases h : metricScore text ≥ imperialScore text
    · simp [h]
    · simp [h]
  · unfold unitsCheck
    simpa using foldl_verdicts (unitsVerdictCore (projectUnitStandard text)) cells []
  · intro val
    unfold unitsVerdictCore
    by_cases h : jsIncludes (toLowerStr val) (toLowerStr (projectUnitStandard text))
    · simp [h]
    · simp only [Bool.not_eq_true] at h
      simp [h]

/-! ### Invariants of the ingestion -/

/-- The name phase preserves any per-entry property that holds of the fresh
entry (whose format counts are empty) and of milestone-only updates. -/
theorem counts_pos_ingestName (m : FileDataMap) (lowerName originalBaseName : String)
    (ms : List String)
    (h : ∀ kv ∈ m, ∀ fc ∈ kv.2.formatCounts, 1 ≤ fc.2) :
    ∀ kv ∈ ingestName m lowerName originalBaseName ms,
      ∀ fc ∈ kv.2.formatCounts, 1 ≤ fc.2 := by
  intro kv hkv
  unfold ingestName at hkv
  cases hl : List.lookup lowerName m with
  | none =>
    rw [hl] at hkv
    rcases mem_alistSet _ _ _ kv hkv with rfl | h2
    · intro fc hfc; simp at hfc
    · exact h kv h2
  | some item =>
    rw [hl] at hkv
    rcases mem_alistSet _ _ _ kv hkv with rfl | h2
    · exact h (lowerName, item) (lookup_mem hl)
    · exact h kv h2

/-- The format phase preserves positivity of all format counts: it only ever
writes a count of the form `previous + 1`. -/
theorem counts_pos_ingestFormat (m1 : FileDataMap) (lowerName extension : String)
    (h : ∀ kv ∈ m1, ∀ fc ∈ kv.2.formatCounts, 1 ≤ fc.2) :
    ∀ kv ∈ ingestFormat m1 lowerName extension,
      ∀ fc ∈ kv.2.formatCounts, 1 ≤ fc.2 := by
  intro kv hkv
  unfold ingestFormat at hkv
  by_cases he : extension ≠ ""
  · rw [if_pos he] at hkv
    cases hl : List.lookup lowerName m1 with
    | none =>
      rw [hl] at hkv
      exact h kv hkv
    | some item =>
      rw [hl] at hkv
      rcases mem_alistSet _ _ _ kv hkv with rfl | h2
      · intro fc hfc
        rcases mem_alistSet _ _ _ fc hfc with rfl | h3
        · exact Nat.le_add_left 1 _
        · exact h (lowerName, item) (lookup_mem hl) fc h3
      · exact h kv h2
  · rw [if_neg he] at hkv
    exact h kv hkv

/-- Every format count stored by the ingestion of a row list is at least 1. -/
theorem counts_pos_build (rows : List MIDPRow) :
    ∀ kv ∈ buildFileDataMap rows, ∀ fc ∈ kv.2.formatCounts, 1 ≤ fc.2 := by
  unfold buildFileDataMap
  suffices h : ∀ (m : FileDataMap),
      (∀ kv ∈ m, ∀ fc ∈ kv.2.formatCounts, 1 ≤ fc.2) →
      ∀ kv ∈ rows.foldl ingestRow m, ∀ fc ∈ kv.2.formatCounts, 1 ≤ fc.2 by
    exact h [] (by simp)
  induction rows with
  | nil => intro m hm; simpa using hm
  | cons r rs ih =>
    intro m hm
    simp only [List.foldl_cons]
    refine ih (ingestRow m r) ?_
    unfold ingestRow
    by_cases hn : jsTrim r.name = ""
    · rw [if_pos hn]; exact hm
    · rw [if_neg hn]
      exact counts_pos_ingestFormat _ _ _ (counts_pos_ingestName _ _ _ _ hm)

/-- Membership in the per-base-name format union. -/
theorem mem_formatsAt (A B : FileDataMap) (k f : String) :
    f ∈ formatsAt A B k
      ↔ f ∈ itemFormats (List.lookup k A) ∨ f ∈ itemFormats (List.lookup k B) := by
  unfold formatsAt
  rw [mem_dedupFirst, List.mem_append]

/-- Structure of reconciler membership: every emitted record is `resultFor`
at a key of either map and a format of that key's union. -/
theorem mem_reconcile_struct (A B : FileDataMap) (r : CompResult) :
    r ∈ reconcile A B
      ↔ ∃ k, k ∈ allKeys A B ∧ ∃ f, f ∈ formatsAt A B k ∧ r = resultFor A B k f := by
  unfold reconcile
  simp only [List.mem_flatMap, List.mem_map]
  constructor
  · rintro ⟨k, hk, f, hf, rfl⟩
    exact ⟨k, hk, f, hf, rfl⟩
  · rintro ⟨k, hk, f, hf, rfl⟩
    exact ⟨k, hk, f, hf, rfl⟩

/-! ### C4 — four-way classification -/

/-- C4: the reconciler's status is `classifyCounts` of the two counts; on
any pair of counts at least one of which is positive (which is the case for
every emitted comparison) the classification is exactly the claimed four-way
rule, and the four concrete examples classify as claimed. -/
theorem classifyCounts_spec :
    (classifyCounts 3 3 = CompStatus.matched
     ∧ classifyCounts 2 0 = CompStatus.missingInAcc
     ∧ classifyCounts 0 1 = CompStatus.extraInAcc
     ∧ classifyCounts 2 5 = CompStatus.countMismatch)
    ∧ (∀ m a : Nat, 1 ≤ m ∨ 1 ≤ a →
        ((classifyCounts m a = CompStatus.missingInAcc ↔ 0 < m ∧ a = 0)
         ∧ (classifyCounts m a = CompStatus.extraInAcc ↔ m = 0 ∧ 0 < a)
         ∧ (classifyCounts m a = CompStatus.matched ↔ m = a ∧ 0 < m ∧ 0 < a)
         ∧ (classifyCounts m a = CompStatus.countMismatch
              ↔ m ≠ a ∧ 0 < m ∧ 0 < a)))
    ∧ (∀ A B : FileDataMap, ∀ r ∈ reconcile A B,
        r.status = classifyCounts r.midpCount r.accCount) := by
  refine ⟨by decide, ?_, ?_⟩
  · intro m a h
    unfold classifyCounts
    refine ⟨?_, ?_, ?_, ?_⟩ <;>
      · split_ifs with h1 h2 h3 <;> simp <;> omega
  · intro A B r hr
    rw [mem_reconcile_struct] at hr
    obtain ⟨k, -, f, -, rfl⟩ := hr
    rfl

/-- Witness for the C4 theorem: the claimed rule instantiated at the
concrete pair (2, 0), and the emitted-record part at a concrete one-row
reconciliation. -/
theorem classifyCounts_spec_witness :
    (classifyCounts 2 0 = CompStatus.missingInAcc ↔ 0 < 2 ∧ 0 = 0)
    ∧ ({ baseName := "a", format := "PDF", status := CompStatus.missingInAcc,
         midpCount := 1, accCount := 0, milestones := [] } : CompResult).status
        = classifyCounts 1 0 :=
  ⟨(classifyCounts_spec.2.1 2 0 (Or.inl (by decide))).1,
   classifyCounts_spec.2.2
     (buildFileDataMap [{ name := "a", format := "pdf", milestoneCells := [] }]) []
     { baseName := "a", format := "PDF", status := CompStatus.missingInAcc,
       midpCount := 1, accCount := 0, milestones := [] }
     (by decide)⟩

/-- Projection of `resultFor`: the MIDP-side count is the lookup of the
format in the MIDP item's counts, defaulting to 0. -/
theorem resultFor_midpCount (A B : FileDataMap) (k f : String) :
    (resultFor A B k f).midpCount
      = ((List.lookup k A).bind (fun i => List.lookup f i.formatCounts)).getD 0 := rfl

/-- Projection of `resultFor`: the ACC-side count. -/
theorem resultFor_accCount (A B : FileDataMap) (k f : String) :
    (resultFor A B k f).accCount
      = ((List.lookup k B).bind (fun i => List.lookup f i.formatCounts)).getD 0 := rfl

/-- The name phase never creates a format count: entries keep their format
counts (fresh entries start empty). -/
theorem empty_formats_ingestName (m : FileDataMap)
    (lowerName originalBaseName : String) (ms : List String)
    (h : ∀ kv ∈ m, kv.2.formatCounts = []) :
    ∀ kv ∈ ingestName m lowerName originalBaseName ms,
      kv.2.formatCounts = [] := by
  intro kv hkv
  unfold ingestName at hkv
  cases hl : List.lookup lowerName m with
  | none =>
    rw [hl] at hkv
    rcases mem_alistSet _ _ _ kv hkv with rfl | h2
    · rfl
    · exact h kv h2
  | some item =>
    rw [hl] at hkv
    rcases mem_alistSet _ _ _ kv hkv with rfl | h2
    · exact h (lowerName, item) (lookup_mem hl)
    · exact h kv h2

/-- With an empty normalized format the format phase is the identity. -/
theorem ingestFormat_empty (m1 : FileDataMap) (lowerName : String) :
    ingestFormat m1 lowerName "" = m1 := by
  simp [ingestFormat]

/-- A row list whose normalized formats are all empty builds a map whose
entries all have empty format counts. -/
theorem empty_formats_build (rows : List MIDPRow)
    (hrows : ∀ r0 ∈ rows, normalizeExtension r0.format = "") :
    ∀ kv ∈ buildFileDataMap rows, kv.2.formatCounts = [] := by
  unfold buildFileDataMap
  suffices h : ∀ (m : FileDataMap),
      (∀ r0 ∈ rows, normalizeExtension r0.format = "") →
      (∀ kv ∈ m, kv.2.formatCounts = []) →
      ∀ kv ∈ rows.foldl ingestRow m, kv.2.formatCounts = [] by
    exact h [] hrows (by simp)
  clear hrows
  induction rows with
  | nil => intro m _ hm; simpa using hm
  | cons r rs ih =>
    intro m hrows hm
    simp only [List.foldl_cons]
    refine ih (ingestRow m r) (fun r0 h0 => hrows r0 (List.mem_cons_of_mem _ h0)) ?_
    unfold ingestRow
    by_cases hn : jsTrim r.name = ""
    · rw [if_pos hn]; exact hm
    · rw [if_neg hn]
      rw [hrows r (List.mem_cons_self _ _), ingestFormat_empty]
      exact empty_formats_ingestName _ _ _ _ hm

/-- When every entry of both maps has empty format counts the reconciler
emits nothing. -/
theorem reconcile_nil_of_empty_formats (A B : FileDataMap)
    (hA : ∀ kv ∈ A, kv.2.formatCounts = [])
    (hB : ∀ kv ∈ B, kv.2.formatCounts = []) :
    reconcile A B = [] := by
  unfold reconcile
  rw [List.flatMap_eq_nil_iff]
  intro k _
  have hfa : formatsAt A B k = [] := by
    unfold formatsAt
    have h1 : itemFormats (List.lookup k A) = [] := by
      cases hl : List.lookup k A with
      | none => rfl
      | some it =>
        simp only [itemFormats, List.map_eq_nil_iff]
        exact hA (k, it) (lookup_mem hl)
    have h2 : itemFormats (List.lookup k B) = [] := by
      cases hl : List.lookup k B with
      | none => rfl
      | some it =>
        simp only [itemFormats, List.map_eq_nil_iff]
        exact hB (k, it) (lookup_mem hl)
    rw [h1, h2]
    rfl
  rw [hfa]
  rfl

/-! ### C10 — emitted counts are positive -/

/-- C10: every record the reconciler emits from ingested datasets has a
positive count on at least one side; a row with an empty format cell
contributes its base-name entry but no format bucket, so a row list whose
normalized formats are all empty yields entries with no format counts and —
when both sides are such — an empty comparison output. -/
theorem reconcile_counts_invariant (rowsA rowsB : List MIDPRow) :
    (∀ r ∈ reconcile (buildFileDataMap rowsA) (buildFileDataMap rowsB),
       1 ≤ r.midpCount ∨ 1 ≤ r.accCount)
    ∧ ((∀ r0 ∈ rowsA, normalizeExtension r0.format = "") →
       ∀ kv ∈ buildFileDataMap rowsA, kv.2.formatCounts = [])
    ∧ ((∀ r0 ∈ rowsA, normalizeExtension r0.format = "") →
       (∀ r0 ∈ rowsB, normalizeExtension r0.format = "") →
       reconcile (buildFileDataMap rowsA) (buildFileDataMap rowsB) = []) := by
  refine ⟨?_, empty_formats_build rowsA, ?_⟩
  · intro r hr
    rw [mem_reconcile_struct] at hr
    obtain ⟨k, -, f, hf, rfl⟩ := hr
    rw [mem_formatsAt] at hf
    rcases hf with hf | hf
    · left
      cases hl : List.lookup k (buildFileDataMap rowsA) with
      | none => rw [hl] at hf; simp [itemFormats] at hf
      | some it =>
        rw [hl] at hf
        unfold itemFormats at hf
        obtain ⟨c, hc, hmem⟩ := lookup_of_mem_fst hf
        rw [resultFor_midpCount, hl]
        simp [hc]
        exact counts_pos_build rowsA (k, it) (lookup_mem hl) (f, c) hmem
    · right
      cases hl : List.lookup k (buildFileDataMap rowsB) with
      | none => rw [hl] at hf; simp [itemFormats] at hf
      | some it =>
        rw [hl] at hf
        unfold itemFormats at hf
        obtain ⟨c, hc, hmem⟩ := lookup_of_mem_fst hf
        rw [resultFor_accCount, hl]
        simp [hc]
        exact counts_pos_build rowsB (k, it) (lookup_mem hl) (f, c) hmem
  · intro hA hB
    exact reconcile_nil_of_empty_formats _ _
      (empty_formats_build rowsA hA) (empty_formats_build rowsB hB)

/-- Witness for the C10 theorem: a one-row MIDP side yields a record with a
positive MIDP count; an empty-format row list builds an entry without format
buckets and reconciles to nothing. -/
theorem reconcile_counts_invariant_witness :
    (1 ≤ (CompResult.mk "a" "PDF" CompStatus.missingInAcc 1 0 []).midpCount
     ∨ 1 ≤ (CompResult.mk "a" "PDF" CompStatus.missingInAcc 1 0 []).accCount)
    ∧ ("b", FileItem.mk "b" [] []).2.formatCounts = []
    ∧ reconcile (buildFileDataMap [MIDPRow.mk "b" " " []])
        (buildFileDataMap []) = [] :=
  ⟨(reconcile_counts_invariant [MIDPRow.mk "a" "pdf" []] []).1
     (CompResult.mk "a" "PDF" CompStatus.missingInAcc 1 0 []) (by decide),
   (reconcile_counts_invariant [MIDPRow.mk "b" " " []] []).2.1 (by decide)
     ("b", FileItem.mk "b" [] []) (by decide),
   (reconcile_counts_invariant [MIDPRow.mk "b" " " []] []).2.2
     (by decide) (by decide)⟩

/-! ### Completeness of the reconciler -/

/-- Pair membership in `emittedPairs` is key membership plus format-union
membership. -/
theorem mem_emittedPairs (A B : FileDataMap) (k f : String) :
    (k, f) ∈ emittedPairs A B ↔ k ∈ allKeys A B ∧ f ∈ formatsAt A B k := by
  unfold emittedPairs
  simp only [List.mem_flatMap, List.mem_map]
  constructor
  · rintro ⟨k1, hk, f1, hf, heq⟩
    injection heq with h1 h2
    subst h1
    subst h2
    exact ⟨hk, hf⟩
  · rintro ⟨hk, hf⟩
    exact ⟨k, hk, f, hf, rfl⟩

/-- A key whose map-side lookup carries formats is in the key union. -/
theorem mem_allKeys_left {A B : FileDataMap} {k : String} {it : FileItem}
    (h : List.lookup k A = some it) : k ∈ allKeys A B := by
  unfold allKeys
  rw [mem_dedupFirst, List.mem_append]
  exact Or.inl (List.mem_map_of_mem Prod.fst (lookup_mem h))

/-- A key whose ACC-side lookup succeeds is in the key union. -/
theorem mem_allKeys_right {A B : FileDataMap} {k : String} {it : FileItem}
    (h : List.lookup k B = some it) : k ∈ allKeys A B := by
  unfold allKeys
  rw [mem_dedupFirst, List.mem_append]
  exact Or.inr (List.mem_map_of_mem Prod.fst (lookup_mem h))

/-- With duplicate-free keys, the pairs of one map are exactly the formats
its lookups carry. -/
theorem mem_mapPairs_iff (A : FileDataMap) (hA : (A.map Prod.fst).Nodup)
    (k f : String) :
    (k, f) ∈ mapPairs A ↔ f ∈ itemFormats (List.lookup k A) := by
  constructor
  · intro h
    unfold mapPairs at h
    simp only [List.mem_flatMap, List.mem_map] at h
    obtain ⟨kv, hkv, fc, hfc, heq⟩ := h
    injection heq with h1 h2
    have hl : List.lookup k A = some kv.2 := by
      apply lookup_eq_of_mem_nodup hA
      rw [← h1]
      exact hkv
    rw [hl]
    unfold itemFormats
    rw [← h2]
    exact List.mem_map_of_mem Prod.fst hfc
  · intro h
    cases hl : List.lookup k A with
    | none => rw [hl] at h; simp [itemFormats] at h
    | some it =>
      rw [hl] at h
      unfold itemFormats at h
      simp only [List.mem_map] at h
      obtain ⟨fc, hfc, rfl⟩ := h
      unfold mapPairs
      simp only [List.mem_flatMap, List.mem_map]
      exact ⟨(k, it), lookup_mem hl, fc, hfc, rfl⟩

/-- Each pair of a map under the lowercase hypotheses is lowercase-fixed. -/
theorem mapPairs_lower (A : FileDataMap)
    (hAl : ∀ kv ∈ A, toLowerStr kv.1 = kv.1
      ∧ ∀ fc ∈ kv.2.formatCounts, toLowerStr fc.1 = fc.1) :
    ∀ p ∈ mapPairs A, toLowerStr p.1 = p.1 ∧ toLowerStr p.2 = p.2 := by
  intro p hp
  unfold mapPairs at hp
  simp only [List.mem_flatMap, List.mem_map] at hp
  obtain ⟨kv, hkv, fc, hfc, rfl⟩ := hp
  exact ⟨(hAl kv hkv).1, (hAl kv hkv).2 fc hfc⟩

/-! ### C5 — reconciler completeness -/

/-- C5: for input maps with duplicate-free, lowercase base-name and format
keys (as the ingestion produces), the reconciler emits exactly one record
per (base name, format) pair of the iterated union, the iterated pairs are
duplicate-free and are exactly the pairs present in either input, and hence
the output length equals the number of distinct (base name, format) pairs —
compared case-insensitively — across the union of both inputs. -/
theorem reconcile_complete (A B : FileDataMap)
    (hA : (A.map Prod.fst).Nodup) (hB : (B.map Prod.fst).Nodup)
    (hAl : ∀ kv ∈ A, toLowerStr kv.1 = kv.1
      ∧ ∀ fc ∈ kv.2.formatCounts, toLowerStr fc.1 = fc.1)
    (hBl : ∀ kv ∈ B, toLowerStr kv.1 = kv.1
      ∧ ∀ fc ∈ kv.2.formatCounts, toLowerStr fc.1 = fc.1) :
    (reconcile A B = (emittedPairs A B).map (fun p => resultFor A B p.1 p.2))
    ∧ (emittedPairs A B).Nodup
    ∧ (∀ p : String × String,
        p ∈ emittedPairs A B ↔ p ∈ mapPairs A ∨ p ∈ mapPairs B)
    ∧ (reconcile A B).length
        = (((mapPairs A ++ mapPairs B).map
            (fun p => (toLowerStr p.1, toLowerStr p.2))).dedup).length := by
  have hmap : reconcile A B
      = (emittedPairs A B).map (fun p => resultFor A B p.1 p.2) := by
    unfold reconcile emittedPairs
    rw [List.map_flatMap]
    simp only [List.map_map]
    rfl
  have hnodup : (emittedPairs A B).Nodup := by
    unfold emittedPairs
    rw [List.nodup_flatMap]
    constructor
    · intro k _
      exact (nodup_dedupFirst _).map (fun a b h => congrArg Prod.snd h)
    · have hkeys : (allKeys A B).Nodup := nodup_dedupFirst _
      refine List.Pairwise.imp ?_ hkeys
      intro k1 k2 hne
      intro p hp1 hp2
      simp only [List.mem_map] at hp1 hp2
      obtain ⟨f1, -, rfl⟩ := hp1
      obtain ⟨f2, -, heq⟩ := hp2
      injection heq with h1 h2
      exact hne h1.symm
  have hmem : ∀ p : String × String,
      p ∈ emittedPairs A B ↔ p ∈ mapPairs A ∨ p ∈ mapPairs B := by
    rintro ⟨k, f⟩
    rw [mem_emittedPairs, mem_mapPairs_iff A hA, mem_mapPairs_iff B hB,
        mem_formatsAt]
    constructor
    · rintro ⟨-, h⟩; exact h
    · intro h
      refine ⟨?_, h⟩
      rcases h with h | h
      · cases hl : List.lookup k A with
        | none => rw [hl] at h; simp [itemFormats] at h
        | some it => exact mem_allKeys_left hl
      · cases hl : List.lookup k B with
        | none => rw [hl] at h; simp [itemFormats] at h
        | some it => exact mem_allKeys_right hl
  refine ⟨hmap, hnodup, hmem, ?_⟩
  have hlower : (mapPairs A ++ mapPairs B).map
      (fun p => (toLowerStr p.1, toLowerStr p.2)) = mapPairs A ++ mapPairs B := by
    rw [List.map_congr_left]
    · exact List.map_id _
    · intro p hp
      rcases List.mem_append.mp hp with hp | hp
      · obtain ⟨h1, h2⟩ := mapPairs_lower A hAl p hp
        rw [h1, h2]
        rfl
      · obtain ⟨h1, h2⟩ := mapPairs_lower B hBl p hp
        rw [h1, h2]
        rfl
  rw [hmap, List.length_map, hlower]
  refine ((List.perm_ext_iff_of_nodup hnodup
    (List.nodup_dedup _)).mpr ?_).length_eq
  intro p
  rw [List.mem_dedup, List.mem_append]
  exact hmem p

/-- Witness for the C5 theorem at concrete one-entry maps. -/
theorem reconcile_complete_witness :
    (reconcile (buildFileDataMap [MIDPRow.mk "C" "pdf" []]) []
      = (emittedPairs (buildFileDataMap [MIDPRow.mk "C" "pdf" []]) []).map
          (fun p => resultFor (buildFileDataMap [MIDPRow.mk "C" "pdf" []]) [] p.1 p.2))
    ∧ (reconcile (buildFileDataMap [MIDPRow.mk "C" "pdf" []]) []).length
        = (((mapPairs (buildFileDataMap [MIDPRow.mk "C" "pdf" []]) ++ mapPairs []).map
            (fun p => (toLowerStr p.1, toLowerStr p.2))).dedup).length :=
  ⟨(reconcile_complete (buildFileDataMap [MIDPRow.mk "C" "pdf" []]) []
      (by decide) (by decide) (by decide) (by decide)).1,
   (reconcile_complete (buildFileDataMap [MIDPRow.mk "C" "pdf" []]) []
      (by decide) (by decide) (by decide) (by decide)).2.2.2⟩

end BimQaqc
